import Mathlib

/-!
Shallow embedding of the ReAct agent control loop of
`src/agentscope/agent/_react_agent.py` (the reasoning-acting controller, the
tool invocation coordinator, the completion protocol, the hint channel and the
memory compaction engine), together with theorems checking the repository's
specification against it.

The conversation-store collaborator (`InMemoryMemory` / `MemoryBase`) is not
part of the sources; its operations (`add`, `get_memory`, `clear`,
`update_compressed_summary`, `update_messages_mark`) are modelled from the
spec where noted.  The model, formatter, token-counter, toolkit and plan
collaborators are passed in as oracle functions, as the spec treats them as
external interfaces.
-/

set_option linter.unusedVariables false

/-- Structured dictionaries (python `dict[str, str]`-shaped payloads, e.g. the
validated structured output stored in `Msg.metadata`) are embedded as
association lists. -/
abbrev SData := List (String × String)

/-- Keyword arguments handed to the finishing tool `generate_response`. -/
abbrev SArgs := List (String × String)

/-- Content block of a message: `TextBlock`, `AudioBlock`, `ToolUseBlock`
(`tool_use`) or `ToolResultBlock` (`tool_result`).  A tool result's `output`
payload is a list of content blocks; the plain-string payloads the source
sometimes assigns (e.g. the interrupt notice) are embedded as a single text
block. -/
inductive ContentBlock where
  | text (s : String)
  | audio (s : String)
  | tool_use (id : String) (name : String) (input : SArgs)
  | tool_result (id : String) (name : String) (output : List ContentBlock)
deriving Repr

/-- A message (`Msg`).  `mid` models the globally unique message id; the
embedding allocates `mid`s from a running counter wherever the source
constructs a `Msg`. -/
structure Msg where
  mid : Nat
  name : String
  role : String
  content : List ContentBlock
  metadata : Option SData := none
deriving Repr

/-- Ids of the `tool_result` blocks of a message
(`msg.get_content_blocks("tool_result")`, projected to the `id` field). -/
def Msg.toolResultIds (m : Msg) : List String :=
  m.content.filterMap fun b =>
    match b with
    | .tool_result i _ _ => some i
    | _ => none

/-- Ids of the `tool_use` blocks of a message. -/
def Msg.toolUseIds (m : Msg) : List String :=
  m.content.filterMap fun b =>
    match b with
    | .tool_use i _ _ => some i
    | _ => none

/-- A `tool_use` block extracted as a record (id, tool name, arguments). -/
structure ToolUseData where
  id : String
  name : String
  input : SArgs
deriving Repr

/-- The `tool_use` blocks of a content list, as records. -/
def contentToolUses (content : List ContentBlock) : List ToolUseData :=
  content.filterMap fun b =>
    match b with
    | .tool_use i n a => some ⟨i, n, a⟩
    | _ => none

/-- The `text` blocks of a content list. -/
def contentTextBlocks (content : List ContentBlock) : List ContentBlock :=
  content.filter fun b =>
    match b with
    | .text _ => true
    | _ => false

/-- The `tool_use` blocks of a message (`msg.get_content_blocks("tool_use")`). -/
def Msg.toolUseBlocks (m : Msg) : List ToolUseData :=
  contentToolUses m.content

/-- The `text` blocks of a message (`msg.get_content_blocks("text")`). -/
def Msg.textBlocks (m : Msg) : List ContentBlock :=
  contentTextBlocks m.content

/-- `msg.has_content_blocks("text")`. -/
def Msg.hasText (m : Msg) : Bool :=
  !m.textBlocks.isEmpty

/-- `msg.has_content_blocks("tool_use")`. -/
def Msg.hasToolUse (m : Msg) : Bool :=
  !m.toolUseBlocks.isEmpty

/-- Lifecycle marks on stored messages (`_MemoryMark`): `hint` messages are
cleared after use, `compressed` messages are logically excluded from prompt
views. -/
inductive MemoryMark where
  | hint
  | compressed
deriving DecidableEq, Repr

/-- The conversation log: an append-only list of turns, each with at most one
lifecycle mark, plus the slot holding the compacted-summary text
(`update_compressed_summary`).  Modelled from the spec: the store itself
(`InMemoryMemory`) is not under the sources; §2 describes it as an append-only
sequence of turns taggable with zero-or-one mark, supporting filtered reads. -/
structure Memory where
  entries : List (Msg × Option MemoryMark)
  compressedSummary : Option String := none

/-- Append one turn with an optional mark (`memory.add(msg, marks=...)`). -/
def Memory.addMsg (mem : Memory) (m : Msg) (mark : Option MemoryMark := none) :
    Memory :=
  { mem with entries := mem.entries ++ [(m, mark)] }

/-- All stored turns, in order. -/
def Memory.msgs (mem : Memory) : List Msg :=
  mem.entries.map (·.1)

/-- Filtered read excluding `compressed`-marked turns
(`memory.get_memory(exclude_mark=_MemoryMark.COMPRESSED)`).  Modelled from the
spec: "supports filtered reads that exclude a given mark". -/
def Memory.uncompressed (mem : Memory) : List Msg :=
  (mem.entries.filter fun e =>
    match e.2 with
    | some .compressed => false
    | _ => true).map (·.1)

/-- The synthetic summary turn presenting the compacted range's replacement;
its id is outside the allocator range because it never enters `entries`. -/
def summaryMsg (s : String) : Msg :=
  ⟨0, "summary", "system", [.text s], none⟩

/-- Default read used to build reasoning prompts (`memory.get_memory()` with no
argument).  Modelled from the spec: §4.3 formats the prompt from "the full
uncompressed log view (excluding `compressed`-marked turns)" and §4.5 stores
the summary turn as the compacted range's logical replacement, so the default
view is the summary turn (when present) followed by the turns not marked
`compressed`. -/
def Memory.promptView (mem : Memory) : List Msg :=
  (match mem.compressedSummary with
   | some s => [summaryMsg s]
   | none => []) ++ mem.uncompressed

/-- Drop `hint`-marked turns.  Modelled from the spec: the `_MemoryMark.HINT`
docstring says hint messages "will be cleared after use", and §2/§4.3 make
hints one-shot turns consumed by exactly one reasoning step; the clearing
itself lives in the missing memory class, so it is modelled as happening when
a reasoning step consumes the prompt. -/
def Memory.clearHintMarked (mem : Memory) : Memory :=
  { mem with
    entries := mem.entries.filter fun e =>
      match e.2 with
      | some .hint => false
      | _ => true }

/-- Store the compacted summary text (`memory.update_compressed_summary`).
Modelled from the spec: §4.5 step 6, "store it as a single synthetic summary
turn representing the compacted range's logical replacement". -/
def Memory.updateCompressedSummary (mem : Memory) (s : String) : Memory :=
  { mem with compressedSummary := some s }

/-- Re-mark the listed turns (`memory.update_messages_mark(msg_ids, new_mark)`).
Modelled from the spec: §4.5 step 6, "mark every turn in the candidate range as
`compressed`". -/
def Memory.updateMessagesMark (mem : Memory) (msg_ids : List Nat)
    (new_mark : MemoryMark) : Memory :=
  { mem with
    entries := mem.entries.map fun e =>
      if e.1.mid ∈ msg_ids then (e.1, some new_mark) else e }

/-- Set the `metadata` field of the stored turn with the given id; embeds the
python aliasing at `reply` line 493, where `msg_reasoning.metadata = ...`
mutates the object already held by the log. -/
def Memory.setMetadataById (mem : Memory) (mid : Nat) (v : Option SData) :
    Memory :=
  { mem with
    entries := mem.entries.map fun e =>
      if e.1.mid = mid then ({ e.1 with metadata := v }, e.2) else e }

/-! ### The memory compaction engine (`_compress_memory_if_needed`) -/

/-- Python-set insertion of the ids of one message's `tool_result` blocks
(`accumulated_tool_call_ids.add(block["id"])`). -/
def insertIds (acc : List String) (ids : List String) : List String :=
  ids.foldl (fun a i => if i ∈ a then a else i :: a) acc

/-- Guarded removal of the ids of one message's `tool_use` blocks
(`if block["id"] in accumulated_tool_call_ids: ...remove(block["id"])`). -/
def removeIds (acc : List String) (ids : List String) : List String :=
  ids.foldl (fun a i => a.erase i) acc

/-- Backward walk of `_compress_memory_if_needed` (source lines 981-1000).
The argument list is the log view reversed (most recent turn first), so a call
processing message `m` with reversed tail `rest` is at original index
`rest.length`.  Returns `some i` when the loop breaks with `n_keep ≥
keep_recent` at original index `i` (the candidate is then `msgs[:i]`), and
`none` when the loop finishes without the break. -/
def compressionCutIndex (keep_recent : Nat) :
    List Msg → Nat → List String → Option Nat
  | [], _, _ => none
  | m :: rest, n_keep, acc =>
    let acc' := removeIds (insertIds acc m.toolResultIds) m.toolUseIds
    let n_keep' := if acc'.isEmpty then n_keep + 1 else n_keep
    if keep_recent ≤ n_keep' then some rest.length
    else compressionCutIndex keep_recent rest n_keep' acc'

/-- The candidate range `to_compressed_msgs` after the walk: `msgs[:i]` when
the walk breaks at index `i`.  When the walk finishes without breaking (fewer
than `keep_recent` valid-boundary units in the log), the source leaves
`to_compressed_msgs` bound to the WHOLE list. -/
def toCompressedMsgs (keep_recent : Nat) (msgs : List Msg) : List Msg :=
  match compressionCutIndex keep_recent msgs.reverse 0 [] with
  | some i => msgs.take i
  | none => msgs

/-- Compaction configuration (`ReActAgent.CompressionConfig`); the token
counter, models and formatters it carries are passed separately as oracles. -/
structure CompressionConfig where
  enable : Bool
  trigger_threshold : Nat
  keep_recent : Nat := 3
deriving Repr

/-- The five-field summary schema (`SummarySchema`). -/
structure SummarySchemaData where
  task_overview : String
  current_state : String
  important_discoveries : String
  next_steps : String
  context_to_preserve : String
deriving Repr

/-- Rendering of `CompressionConfig.summary_template` with the five summary
fields (`summary_template.format(**last_chunk.metadata)`). -/
def renderSummaryTemplate (d : SummarySchemaData) : String :=
  "<system-info>Here is a summary of your previous work\n# Task Overview\n"
    ++ d.task_overview
    ++ "\n\n# Current State\n" ++ d.current_state
    ++ "\n\n# Important Discoveries\n" ++ d.important_discoveries
    ++ "\n\n# Next Steps\n" ++ d.next_steps
    ++ "\n\n# Context to Preserve\n" ++ d.context_to_preserve
    ++ "</system-info>"

/-- The fresh system turn `Msg("system", self.sys_prompt, "system")` placed at
the head of every formatted prompt; its id is outside the allocator range
because it never enters the log. -/
def systemMsg (sys_prompt : String) : Msg :=
  ⟨0, "system", "system", [.text sys_prompt], none⟩

/-- The compaction engine `_compress_memory_if_needed`, with the collaborators
as oracles: `tokenCount` is the bound token counter applied to the formatted
prompt (the formatter is pure, §6, so counting is composed over the turn
list), and `summarize` is the (possibly dedicated) summarization model's
structured metadata for the candidate range — `none` models both an absent and
a falsy (empty) metadata dict, i.e. `if last_chunk.metadata:` failing. -/
def compressMemoryIfNeeded (cfg : Option CompressionConfig)
    (sys_prompt : String)
    (tokenCount : List Msg → Nat)
    (summarize : List Msg → Option SummarySchemaData)
    (mem : Memory) : Memory :=
  match cfg with
  | none => mem
  | some c =>
    if !c.enable then mem
    else
      let view := mem.uncompressed
      let to_compressed_msgs := toCompressedMsgs c.keep_recent view
      if to_compressed_msgs.isEmpty then mem
      else
        let n_tokens := tokenCount (systemMsg sys_prompt :: to_compressed_msgs)
        if c.trigger_threshold < n_tokens then
          match summarize to_compressed_msgs with
          | some data =>
            (mem.updateCompressedSummary
                (renderSummaryTemplate data)).updateMessagesMark
              (to_compressed_msgs.map (·.mid)) .compressed
          | none => mem
        else mem

/-! ### Claim C1: the compaction boundary never splits a request/result pair -/

/-- C1: for every uncompressed log `[A(text only), B(tool_request id `x`),
C(matching tool_result id `x`), D(text only)]` and `keep_recent = 2`, the
compaction engine's candidate range is exactly `[A]`: D counts as one retained
unit, B and C together count as one atomic retained unit, and the candidate is
never `[A, B]`. -/
theorem c1_candidate_is_exactly_A (a b c d : Msg) (x : String)
    (ha1 : a.toolResultIds = []) (ha2 : a.toolUseIds = [])
    (hb1 : b.toolResultIds = []) (hb2 : b.toolUseIds = [x])
    (hc1 : c.toolResultIds = [x]) (hc2 : c.toolUseIds = [])
    (hd1 : d.toolResultIds = []) (hd2 : d.toolUseIds = []) :
    toCompressedMsgs 2 [a, b, c, d] = [a] := by
  unfold toCompressedMsgs
  simp [compressionCutIndex, ha1, ha2, hb1, hb2, hc1, hc2, hd1, hd2,
    insertIds, removeIds]

/-- Witness for C1 at a concrete log. -/
theorem c1_candidate_is_exactly_A_witness :
    toCompressedMsgs 2
      [⟨10, "user", "user", [ContentBlock.text "A"], none⟩,
       ⟨11, "agent", "assistant", [ContentBlock.tool_use "1" "srch" []], none⟩,
       ⟨12, "system", "system", [ContentBlock.tool_result "1" "srch" []], none⟩,
       ⟨13, "agent", "assistant", [ContentBlock.text "D"], none⟩] =
      [⟨10, "user", "user", [ContentBlock.text "A"], none⟩] :=
  c1_candidate_is_exactly_A _ _ _ _ "1" rfl rfl rfl rfl rfl rfl rfl rfl

/-! ### Claim C4: logs with at most `keep_recent` units

The walk only assigns the candidate on its break; when the log holds fewer
than `keep_recent` valid-boundary units the loop finishes without breaking and
`to_compressed_msgs` is still bound to the WHOLE log, so the engine proceeds
to compress everything instead of stopping — contradicting the
`keep_recent` docstring ("the number of most recent messages to keep
uncompressed ... to preserve the recent context") and the in-function comment
("keep the recent n messages uncompressed"). -/

/-- C4 failing-input evaluation: a two-turn text-only log with
`keep_recent = 3` has two valid-boundary units, at most `keep_recent`; the
claim requires an empty candidate, but the engine's candidate is the whole
log, and with a trigger threshold below the measured cost the engine marks
both turns `compressed` and stores a summary. -/
theorem c4_small_log_candidate_is_whole_log :
    toCompressedMsgs 3
        [⟨20, "user", "user", [ContentBlock.text "A"], none⟩,
         ⟨21, "agent", "assistant", [ContentBlock.text "B"], none⟩] =
      [⟨20, "user", "user", [ContentBlock.text "A"], none⟩,
       ⟨21, "agent", "assistant", [ContentBlock.text "B"], none⟩] ∧
    (compressMemoryIfNeeded (some ⟨true, 0, 3⟩) "sys" (fun _ => 100)
        (fun _ => some ⟨"t", "c", "i", "n", "p"⟩)
        ⟨[(⟨20, "user", "user", [ContentBlock.text "A"], none⟩, none),
          (⟨21, "agent", "assistant", [ContentBlock.text "B"], none⟩, none)],
         none⟩).entries.map (fun e => e.2) =
      [some MemoryMark.compressed, some MemoryMark.compressed] := by
  constructor
  · rfl
  · rfl

/-! ### Claim C9: compaction summarization failure changes no state -/

/-- C9: when the compaction summarization call returns no structured metadata
(the model response's metadata dict is absent or falsy), the compaction engine
changes no state — no summary turn is stored and no turn is marked
`compressed` — so a retry on a subsequent trigger starts from the unchanged
log. -/
theorem c9_summarize_failure_leaves_memory_unchanged
    (cfg : Option CompressionConfig) (sys_prompt : String)
    (tokenCount : List Msg → Nat)
    (summarize : List Msg → Option SummarySchemaData) (mem : Memory)
    (hfail : ∀ msgs, summarize msgs = none) :
    compressMemoryIfNeeded cfg sys_prompt tokenCount summarize mem = mem := by
  unfold compressMemoryIfNeeded
  match cfg with
  | none => rfl
  | some c =>
    simp only
    split
    · rfl
    · split
      · rfl
      · split
        · rw [hfail]
        · rfl

/-- Witness for C9 at a concrete memory and failing summarizer. -/
theorem c9_summarize_failure_leaves_memory_unchanged_witness :
    compressMemoryIfNeeded (some ⟨true, 0, 1⟩) "sys" (fun _ => 500)
        (fun _ => none)
        ⟨[(⟨30, "user", "user", [ContentBlock.text "hi"], none⟩, none),
          (⟨31, "agent", "assistant", [ContentBlock.text "yo"], none⟩, none)],
         none⟩ =
      ⟨[(⟨30, "user", "user", [ContentBlock.text "hi"], none⟩, none),
        (⟨31, "agent", "assistant", [ContentBlock.text "yo"], none⟩, none)],
       none⟩ :=
  c9_summarize_failure_leaves_memory_unchanged _ _ _ _ _ (fun _ => rfl)

/-! ### The completion protocol (`generate_response`) and the tool
invocation coordinator (`_acting`) -/

/-- The finishing tool's registered name (`ReActAgent.finish_function_name`). -/
def finish_function_name : String := "generate_response"

/-- Metadata dict of a `ToolResponse` chunk, as read by `_acting`
(`chunk.metadata.get("success", False)` and
`chunk.metadata.get("structured_output")`). -/
structure RespMeta where
  success : Bool
  structured_output : Option SData
deriving Repr

/-- One progress chunk of a tool invocation outcome (`ToolResponse`): a
partial output payload, optional metadata, and the interruption flag.  The
`is_last` flag only drives printing and is not modelled. -/
structure ToolRespChunk where
  content : List ContentBlock
  metadata : Option RespMeta := none
  is_interrupted : Bool := false
deriving Repr

/-- The structured-output schema supplied to `reply`, embedded as its
validation function: `.ok` is `model_validate(kwargs).model_dump()` and
`.error` carries the `ValidationError` text. -/
abbrev StructuredSchema := SArgs → Except String SData

/-- The finishing tool `generate_response` (source lines 788-837): validate
the keyword arguments against the required structured model; on a validation
error return a recoverable error response with metadata
`{success: False, structured_output: {}}`; otherwise (including the
no-schema-active warning case) return the success response. -/
def generate_response (required : Option StructuredSchema)
    (kwargs : SArgs) : ToolRespChunk :=
  match required with
  | some schema =>
    match schema kwargs with
    | .error e =>
        { content := [.text ("参数验证错误: " ++ e)],
          metadata := some ⟨false, some []⟩ }
    | .ok data =>
        { content := [.text "成功生成响应"],
          metadata := some ⟨true, some data⟩ }
  | none =>
      { content := [.text "成功生成响应"],
        metadata := some ⟨true, none⟩ }

/-- Control signal with which one `_acting` call ends: a normal return (with
the structured output when the finishing tool short-circuited), a
`CancelledError` raised on an interrupted chunk, or another propagating tool
error. -/
inductive ActSignal where
  | normal (so : Option SData)
  | interrupt
  | failed
deriving Repr

/-- Chunk-consumption loop of `_acting` (source lines 657-678): update the
result payload to each chunk's content, raise cancellation on an interrupted
chunk, and short-circuit with the structured output when the finishing tool
reports success.  `raiseAfter` models the chunk stream raising a
non-cancellation error after its listed chunks. -/
def actingLoop (tool_name : String) (raiseAfter : Bool) :
    List ToolRespChunk → List ContentBlock → List ContentBlock × ActSignal
  | [], out => (out, if raiseAfter then .failed else .normal none)
  | c :: rest, out =>
    let out' := c.content
    if c.is_interrupted then (out', .interrupt)
    else
      match c.metadata with
      | some md =>
        if tool_name == finish_function_name && md.success then
          (out', .normal md.structured_output)
        else actingLoop tool_name raiseAfter rest out'
      | none => actingLoop tool_name raiseAfter rest out'

/-- Tool invocation coordinator `_acting` for one tool request: the chunk
stream of `toolkit.call_tool_function` is given as `chunks`.  A placeholder
result turn bound to the request's identifier is produced with an empty
payload, updated while draining the stream, and appended to the log in the
`finally` path exactly once whatever the signal. -/
def acting (mem : Memory) (nid : Nat) (tc : ToolUseData)
    (chunks : List ToolRespChunk) (raiseAfter : Bool) :
    Memory × Nat × ActSignal :=
  let r := actingLoop tc.name raiseAfter chunks []
  let tool_res_msg : Msg :=
    ⟨nid, "system", "system", [.tool_result tc.id tc.name r.1], none⟩
  (mem.addMsg tool_res_msg, nid + 1, r.2)

/-! ### Claim C5: exactly one matching result turn per executed request -/

/-- C5: for every tool request executed by the coordinator — whatever the
chunk stream does (success, short-circuit, mid-stream interruption, or a tool
error) — exactly one result turn is appended to the log, and its single
`tool_result` block's identifier equals the request's identifier. -/
theorem c5_exactly_one_matching_result_turn (mem : Memory) (nid : Nat)
    (tc : ToolUseData) (chunks : List ToolRespChunk) (raiseAfter : Bool) :
    ∃ res sig,
      acting mem nid tc chunks raiseAfter = (mem.addMsg res, nid + 1, sig) ∧
      res.toolResultIds = [tc.id] := by
  refine ⟨⟨nid, "system", "system",
    [.tool_result tc.id tc.name (actingLoop tc.name raiseAfter chunks []).1],
    none⟩, (actingLoop tc.name raiseAfter chunks []).2, rfl, ?_⟩
  simp [Msg.toolResultIds]

/-! ### The reasoning step (`_reasoning`) -/

/-- Static agent configuration used by the control loop. -/
structure AgentCfg where
  name : String
  sys_prompt : String
  max_iters : Nat := 10
deriving Repr

/-- Mutable controller state threaded through the loop: the conversation log,
the Hint Channel (`_reasoning_hint_msgs`), and the id allocator for freshly
constructed messages. -/
structure AgentState where
  memory : Memory
  hintMsgs : List Msg
  nextId : Nat

/-- Payload of a message constructed by a collaborator (plan notebook, model,
summarizer); the embedding materializes it into a `Msg` with a fresh id at the
point where the source constructs the `Msg`. -/
structure MsgData where
  name : String
  role : String
  content : List ContentBlock
deriving Repr

/-- How one reasoning step's model interaction ends.  Cancellation is modelled
at the model awaits, as §5 of the spec scopes it ("raised while awaiting a
model or tool call"): `cancelled` and `errored` hit inside the streaming
try-block (a partial `Msg` exists), `abortedEarly` hits at the model call
itself, before the assistant `Msg` is created. -/
inductive ReasonOutcome where
  | completed
  | cancelled
  | errored
  | abortedEarly
deriving DecidableEq, Repr

/-- The interrupt notice written into synthesized tool results
(`output="工具调用已被用户中断"`). -/
def interruptedOutput : List ContentBlock :=
  [.text "工具调用已被用户中断"]

/-- Synthesized "interrupted" result turns, one per `tool_use` block of the
cancelled reasoning turn (source lines 606-625), with ids allocated in
order. -/
def interruptResultMsgs (nid : Nat) : List ToolUseData → List (Msg × Option MemoryMark)
  | [] => []
  | tu :: rest =>
    (⟨nid, "system", "system", [.tool_result tu.id tu.name interruptedOutput],
        none⟩, none)
      :: interruptResultMsgs (nid + 1) rest

/-- Insertion of the plan notebook's guidance turn into the log with the
`hint` mark (source lines 522-527), returning the updated memory and id
allocator. -/
def memAfterPlanHint (st : AgentState) (planHint : Option MsgData) :
    Memory × Nat :=
  match planHint with
  | some h =>
    (st.memory.addMsg ⟨st.nextId, h.name, h.role, h.content, none⟩
        (some MemoryMark.hint),
     st.nextId + 1)
  | none => (st.memory, st.nextId)

/-- Result of one reasoning step: the post-state, the formatted prompt, the
assistant turn appended to the log (`none` only for `abortedEarly`), and
whether the step re-raises to its caller. -/
structure ReasonResult where
  state : AgentState
  prompt : List Msg
  msg : Option Msg
  raises : Bool

/-- Reasoning step `_reasoning` (source lines 516-626), with the model's
assembled (possibly partial) content and the outcome supplied by the model
oracle: insert the optional plan hint, format the prompt from {system turn,
default log view, pending hint turns}, clear the Hint Channel unconditionally,
run the model, append the assembled assistant turn in the `finally` path, and
synthesize interrupted tool results before re-raising a cancellation. -/
def reasoningStep (cfg : AgentCfg) (st : AgentState) (planHint : Option MsgData)
    (content : List ContentBlock) (outcome : ReasonOutcome) : ReasonResult :=
  let mn := memAfterPlanHint st planHint
  let prompt := systemMsg cfg.sys_prompt :: (mn.1.promptView ++ st.hintMsgs)
  let mem2 := mn.1.clearHintMarked
  match outcome with
  | .abortedEarly =>
    { state := { memory := mem2, hintMsgs := [], nextId := mn.2 },
      prompt, msg := none, raises := true }
  | o =>
    let msg : Msg := ⟨mn.2, cfg.name, "assistant", content, none⟩
    let mem3 := mem2.addMsg msg
    let memN :=
      if o = ReasonOutcome.cancelled then
        { mem3 with
          entries := mem3.entries ++ interruptResultMsgs (mn.2 + 1) msg.toolUseBlocks }
      else mem3
    { state :=
        { memory := memN, hintMsgs := [],
          nextId := mn.2 + 1 +
            (if o = ReasonOutcome.cancelled then msg.toolUseBlocks.length else 0) },
      prompt, msg := some msg,
      raises := decide (o ≠ ReasonOutcome.completed) }

/-! ### Claim C2: reasoning prompts exclude compressed turns -/

/-- C2: the prompt of every reasoning step is formatted from exactly the
system turn, the default log view, and the pending hint turns — and every turn
the log view contributes is either the compacted-range summary turn or comes
from a log entry not marked `compressed`, so a `compressed`-marked turn never
appears in a reasoning prompt. -/
theorem c2_prompt_never_contains_compressed (cfg : AgentCfg) (st : AgentState)
    (planHint : Option MsgData) (content : List ContentBlock)
    (outcome : ReasonOutcome) :
    (reasoningStep cfg st planHint content outcome).prompt =
      systemMsg cfg.sys_prompt ::
        ((memAfterPlanHint st planHint).1.promptView ++ st.hintMsgs) ∧
    ∀ m ∈ (memAfterPlanHint st planHint).1.promptView,
      (∃ s, (memAfterPlanHint st planHint).1.compressedSummary = some s ∧
        m = summaryMsg s) ∨
      ∃ e ∈ (memAfterPlanHint st planHint).1.entries,
        e.1 = m ∧ e.2 ≠ some MemoryMark.compressed := by
  constructor
  · cases outcome <;> rfl
  · intro m hm
    unfold Memory.promptView at hm
    rcases List.mem_append.mp hm with hs | hu
    · left
      cases hsum : (memAfterPlanHint st planHint).1.compressedSummary with
      | none => rw [hsum] at hs; cases hs
      | some s =>
        rw [hsum] at hs
        simp only [List.mem_singleton] at hs
        exact ⟨s, rfl, hs⟩
    · right
      unfold Memory.uncompressed at hu
      rcases List.mem_map.mp hu with ⟨e, hef, hem⟩
      rcases List.mem_filter.mp hef with ⟨he, hp⟩
      refine ⟨e, he, hem, ?_⟩
      intro hcomp
      rw [hcomp] at hp
      simp at hp

/-! ### Claim C3: the Hint Channel is drained after every reasoning step -/

/-- Turns not marked `compressed` belong to the filtered uncompressed view. -/
lemma mem_uncompressed_of_not_compressed {mem : Memory}
    {e : Msg × Option MemoryMark} (he : e ∈ mem.entries)
    (h : e.2 ≠ some MemoryMark.compressed) : e.1 ∈ mem.uncompressed := by
  unfold Memory.uncompressed
  refine List.mem_map.mpr ⟨e, List.mem_filter.mpr ⟨he, ?_⟩, rfl⟩
  cases h2 : e.2 with
  | none => simp
  | some mk =>
    cases mk with
    | hint => simp
    | compressed => exact absurd h2 h

/-- After dropping hint-marked turns, no entry carries the `hint` mark. -/
lemma clearHintMarked_no_hint (mem : Memory) :
    ∀ e ∈ mem.clearHintMarked.entries, e.2 ≠ some MemoryMark.hint := by
  intro e he
  unfold Memory.clearHintMarked at he
  rcases List.mem_filter.mp he with ⟨_, hp⟩
  intro hh
  rw [hh] at hp
  simp at hp

/-- Synthesized interrupted results carry no lifecycle mark. -/
lemma interruptResultMsgs_mark :
    ∀ (nid : Nat) (tus : List ToolUseData),
      ∀ e ∈ interruptResultMsgs nid tus, e.2 = none := by
  intro nid tus
  induction tus generalizing nid with
  | nil => intro e he; cases he
  | cons tu rest ih =>
    intro e he
    rcases he with _ | ⟨_, hmem⟩
    · rfl
    · exact ih (nid + 1) _ hmem

/-- C3: for every reasoning step and every outcome (completion, model error,
cancellation during streaming, or abort at the model call), the Hint Channel
is empty immediately after the step, no `hint`-marked turn is left in the log
(so no injected hint can appear in a later prompt), and every pending hint —
channel hints and `hint`-marked log turns alike — was part of exactly this
step's prompt. -/
theorem c3_hint_channel_drained (cfg : AgentCfg) (st : AgentState)
    (planHint : Option MsgData) (content : List ContentBlock)
    (outcome : ReasonOutcome) :
    (reasoningStep cfg st planHint content outcome).state.hintMsgs = [] ∧
    (∀ e ∈ (reasoningStep cfg st planHint content outcome).state.memory.entries,
      e.2 ≠ some MemoryMark.hint) ∧
    (∀ m ∈ st.hintMsgs,
      m ∈ (reasoningStep cfg st planHint content outcome).prompt) ∧
    (∀ e ∈ st.memory.entries, e.2 = some MemoryMark.hint →
      e.1 ∈ (reasoningStep cfg st planHint content outcome).prompt) := by
  refine ⟨?_, ?_, ?_, ?_⟩
  · cases outcome <;> rfl
  · intro e he
    have base := clearHintMarked_no_hint (memAfterPlanHint st planHint).1
    cases outcome with
    | abortedEarly => exact base e he
    | completed => 
      simp only [reasoningStep, Memory.addMsg] at he
      rcases List.mem_append.mp he with h1 | h2
      · exact base e h1
      · simp only [List.mem_singleton] at h2
        rw [h2]
        simp
    | errored =>
      simp only [reasoningStep, Memory.addMsg] at he
      rcases List.mem_append.mp he with h1 | h2
      · exact base e h1
      · simp only [List.mem_singleton] at h2
        rw [h2]
        simp
    | cancelled =>
      simp only [reasoningStep, Memory.addMsg, reduceCtorEq, reduceIte,
        List.append_assoc] at he
      rcases List.mem_append.mp he with h1 | h2
      · exact base e h1
      · rcases List.mem_append.mp h2 with h3 | h4
        · simp only [List.mem_singleton] at h3
          rw [h3]
          simp
        · rw [interruptResultMsgs_mark _ _ e h4]
          simp
  · intro m hm
    have hp : (reasoningStep cfg st planHint content outcome).prompt =
        systemMsg cfg.sys_prompt ::
          ((memAfterPlanHint st planHint).1.promptView ++ st.hintMsgs) := by
      cases outcome <;> rfl
    rw [hp]
    exact List.mem_cons_of_mem _ (List.mem_append_right _ hm)
  · intro e he hh
    have hp : (reasoningStep cfg st planHint content outcome).prompt =
        systemMsg cfg.sys_prompt ::
          ((memAfterPlanHint st planHint).1.promptView ++ st.hintMsgs) := by
      cases outcome <;> rfl
    rw [hp]
    have hmem1 : e ∈ (memAfterPlanHint st planHint).1.entries := by
      unfold memAfterPlanHint
      cases planHint with
      | none => exact he
      | some h => exact List.mem_append_left _ he
    have hnc : e.2 ≠ some MemoryMark.compressed := by
      rw [hh]; simp
    have hv : e.1 ∈ (memAfterPlanHint st planHint).1.uncompressed :=
      mem_uncompressed_of_not_compressed hmem1 hnc
    refine List.mem_cons_of_mem _ (List.mem_append_left _ ?_)
    unfold Memory.promptView
    exact List.mem_append_right _ hv

/-! ### Claim C6: cancellation during a reasoning step -/

/-- Synthesized interrupted results have ids at or above their allocator
start. -/
lemma interruptResultMsgs_mid_ge :
    ∀ (nid : Nat) (tus : List ToolUseData),
      ∀ e ∈ interruptResultMsgs nid tus, nid ≤ e.1.mid := by
  intro nid tus
  induction tus generalizing nid with
  | nil => intro e he; cases he
  | cons tu rest ih =>
    intro e he
    rcases he with _ | ⟨_, hmem⟩
    · exact Nat.le_refl _
    · exact Nat.le_of_succ_le (ih (nid + 1) _ hmem)

/-- Each synthesized interrupted result matches its `tool_use` block: same
identifier, same tool name, and the interrupt notice as payload. -/
lemma interruptResultMsgs_matches :
    ∀ (nid : Nat) (tus : List ToolUseData),
      List.Forall₂
        (fun (e : Msg × Option MemoryMark) (tu : ToolUseData) =>
          e.1.content =
            [ContentBlock.tool_result tu.id tu.name interruptedOutput])
        (interruptResultMsgs nid tus) tus := by
  intro nid tus
  induction tus generalizing nid with
  | nil => exact List.Forall₂.nil
  | cons tu rest ih => exact List.Forall₂.cons rfl (ih (nid + 1))

/-- Inserting the plan hint preserves the id-freshness bound. -/
lemma memAfterPlanHint_mid_lt (st : AgentState) (planHint : Option MsgData)
    (hfresh : ∀ e ∈ st.memory.entries, e.1.mid < st.nextId) :
    ∀ e ∈ (memAfterPlanHint st planHint).1.entries,
      e.1.mid < (memAfterPlanHint st planHint).2 := by
  intro e he
  unfold memAfterPlanHint at he ⊢
  cases planHint with
  | none => exact hfresh e he
  | some h =>
    simp only [Memory.addMsg] at he
    rcases List.mem_append.mp he with h1 | h2
    · exact Nat.lt_succ_of_lt (hfresh e h1)
    · simp only [List.mem_singleton] at h2
      rw [h2]
      exact Nat.lt_succ_self _

/-- Filtering is stable under the freshness bound. -/
lemma clearHintMarked_subset {mem : Memory} {e : Msg × Option MemoryMark}
    (he : e ∈ mem.clearHintMarked.entries) : e ∈ mem.entries :=
  List.mem_filter.mp he |>.1

/-- C6: if cancellation is raised during a reasoning step (while streaming the
model response), the partially assembled assistant turn — with whatever
content exists — is still appended to the log exactly once, one synthesized
"interrupted" tool-result turn is appended for every tool request present in
that turn (matching id and tool name), and the cancellation propagates to the
caller rather than being swallowed. -/
theorem c6_cancelled_reasoning_records_partial_turn (cfg : AgentCfg)
    (st : AgentState) (planHint : Option MsgData) (content : List ContentBlock)
    (hfresh : ∀ e ∈ st.memory.entries, e.1.mid < st.nextId) :
    ∃ m, (reasoningStep cfg st planHint content .cancelled).msg = some m ∧
      m.content = content ∧
      ((reasoningStep cfg st planHint content .cancelled).state.memory.entries.filter
        (fun e => e.1.mid == m.mid)).length = 1 ∧
      (∃ pre, (reasoningStep cfg st planHint content .cancelled).state.memory.entries =
        pre ++ (m, none) :: interruptResultMsgs (m.mid + 1) m.toolUseBlocks) ∧
      List.Forall₂
        (fun (e : Msg × Option MemoryMark) (tu : ToolUseData) =>
          e.1.content =
            [ContentBlock.tool_result tu.id tu.name interruptedOutput])
        (interruptResultMsgs (m.mid + 1) m.toolUseBlocks) m.toolUseBlocks ∧
      (reasoningStep cfg st planHint content .cancelled).raises = true := by
  set mn := memAfterPlanHint st planHint with hmn
  refine ⟨⟨mn.2, cfg.name, "assistant", content, none⟩, rfl, rfl, ?_, ?_, ?_, rfl⟩
  · have hent : (reasoningStep cfg st planHint content .cancelled).state.memory.entries =
        mn.1.clearHintMarked.entries ++
          ((⟨mn.2, cfg.name, "assistant", content, none⟩, none) ::
            interruptResultMsgs (mn.2 + 1)
              (Msg.toolUseBlocks ⟨mn.2, cfg.name, "assistant", content, none⟩)) := by
      simp [reasoningStep, Memory.addMsg, Memory.clearHintMarked]
    rw [hent, List.filter_append, List.length_append]
    have h1 : (mn.1.clearHintMarked.entries.filter
        (fun e => e.1.mid == mn.2)).length = 0 := by
      rw [List.length_eq_zero]
      rw [List.filter_eq_nil_iff]
      intro e he
      have := memAfterPlanHint_mid_lt st planHint hfresh e (clearHintMarked_subset he)
      simp only [beq_iff_eq]
      exact Nat.ne_of_lt this
    have h2 : (((⟨mn.2, cfg.name, "assistant", content, none⟩, none) ::
        interruptResultMsgs (mn.2 + 1)
          (Msg.toolUseBlocks ⟨mn.2, cfg.name, "assistant", content, none⟩)).filter
          (fun (e : Msg × Option MemoryMark) => e.1.mid == mn.2)).length = 1 := by
      rw [List.filter_cons]
      simp only [beq_self_eq_true, if_pos]
      have h3 : (List.filter (fun (e : Msg × Option MemoryMark) => e.1.mid == mn.2)
          (interruptResultMsgs (mn.2 + 1)
            (Msg.toolUseBlocks ⟨mn.2, cfg.name, "assistant", content, none⟩))) = [] := by
        rw [List.filter_eq_nil_iff]
        intro e he
        have := interruptResultMsgs_mid_ge (mn.2 + 1) _ e he
        simp only [beq_iff_eq]
        omega
      rw [h3]
      rfl
    rw [h1, h2]
  · refine ⟨mn.1.clearHintMarked.entries, ?_⟩
    simp [reasoningStep, Memory.addMsg]
  · exact interruptResultMsgs_matches _ _

/-- Witness for C6: a concrete cancelled step whose partial turn holds one
tool request. -/
theorem c6_cancelled_reasoning_records_partial_turn_witness :
    ∃ m, (reasoningStep ⟨"bot", "sys", 10⟩ ⟨⟨[], none⟩, [], 7⟩ none
        [ContentBlock.tool_use "c1" "srch" []] .cancelled).msg = some m ∧
      m.content = [ContentBlock.tool_use "c1" "srch" []] ∧
      ((reasoningStep ⟨"bot", "sys", 10⟩ ⟨⟨[], none⟩, [], 7⟩ none
          [ContentBlock.tool_use "c1" "srch" []] .cancelled).state.memory.entries.filter
        (fun e => e.1.mid == m.mid)).length = 1 ∧
      (∃ pre, (reasoningStep ⟨"bot", "sys", 10⟩ ⟨⟨[], none⟩, [], 7⟩ none
          [ContentBlock.tool_use "c1" "srch" []] .cancelled).state.memory.entries =
        pre ++ (m, none) :: interruptResultMsgs (m.mid + 1) m.toolUseBlocks) ∧
      List.Forall₂
        (fun (e : Msg × Option MemoryMark) (tu : ToolUseData) =>
          e.1.content =
            [ContentBlock.tool_result tu.id tu.name interruptedOutput])
        (interruptResultMsgs (m.mid + 1) m.toolUseBlocks) m.toolUseBlocks ∧
      (reasoningStep ⟨"bot", "sys", 10⟩ ⟨⟨[], none⟩, [], 7⟩ none
        [ContentBlock.tool_use "c1" "srch" []] .cancelled).raises = true :=
  c6_cancelled_reasoning_records_partial_turn _ _ _ _
    (fun e he => absurd he (List.not_mem_nil e))

/-! ### The reasoning-acting controller (`reply`) -/

/-- Tool-choice policy passed to the model (`tool_choice`): the source's
`"auto"`, `"none"` and `"required"` literals. -/
inductive ToolChoice where
  | auto
  | noTools
  | required
deriving DecidableEq, Repr

/-- Loop state of `reply`: the agent state plus the loop-local variables
`self._required_structured_model`, whether the finishing tool is registered in
the toolkit, `tool_choice`, and the cached `structured_output`. -/
structure LoopState where
  ag : AgentState
  required : Option StructuredSchema
  finishRegistered : Bool
  toolChoice : Option ToolChoice
  structuredOutput : Option SData

/-- Oracle input for one iteration of the loop: the plan notebook's optional
guidance turn, the model's assembled assistant content and outcome, and the
toolkit's chunk streams for the iteration's non-finishing tool calls (indexed
by position in the call list; `toolErr i` makes stream `i` raise a
non-cancellation error after its chunks). -/
structure IterInput where
  planHint : Option MsgData
  content : List ContentBlock
  outcome : ReasonOutcome
  toolChunks : Nat → List ToolRespChunk
  toolErr : Nat → Bool

/-- Sequential acting phase of one iteration (source lines 420-431 with
`parallel_tool_calls = False`): run `_acting` for each `tool_use` block in
order, dispatching the finishing tool to `generate_response` when it is
registered and other tools to the toolkit oracle.  Returns the updated memory
and allocator, and `some` list of per-call structured outputs, or `none` when
a call raised (cancellation or error) — the remaining calls are then never
awaited. -/
def actPhase (required : Option StructuredSchema) (finReg : Bool)
    (inp : IterInput) :
    List ToolUseData → Nat → Memory → Nat →
      Memory × Nat × Option (List (Option SData))
  | [], _, mem, nid => (mem, nid, some [])
  | tc :: rest, idx, mem, nid =>
    let isFinish := finReg && (tc.name == finish_function_name)
    let chunks :=
      if isFinish then [generate_response required tc.input]
      else inp.toolChunks idx
    let r := acting mem nid tc chunks (if isFinish then false else inp.toolErr idx)
    match r.2.2 with
    | .normal so =>
      match actPhase required finReg inp rest (idx + 1) r.1 r.2.1 with
      | (mem', nid', some sos) => (mem', nid', some (so :: sos))
      | (mem', nid', none) => (mem', nid', none)
    | .interrupt => (r.1, r.2.1, none)
    | .failed => (r.1, r.2.1, none)

/-- Python truthiness filter `[_ for _ in structured_outputs if _]`: drops
both `None` results and empty dicts. -/
def truthyOutputs (results : List (Option SData)) : List SData :=
  results.filterMap fun so =>
    match so with
    | some d => if d.isEmpty then none else some d
    | none => none

/-- Result of one iteration of the reasoning-acting loop: finish with the
reply turn (`break`), continue the loop, or abort because a cancellation or
error propagated out of the iteration. -/
inductive IterStep where
  | finished (st : LoopState) (m : Msg)
  | more (st : LoopState)
  | aborted (st : LoopState)

/-- The one-shot hint requesting a text-only response (source lines 457-462),
added to the LOG with the `hint` mark. -/
def textResponseHintData : MsgData :=
  ⟨"user", "user",
    [.text "<system-hint>现在根据当前情况生成文本响应</system-hint>"]⟩

/-- The one-shot reminder to keep acting or call the finishing tool (source
lines 476-483), added to the Hint Channel. -/
def continueTaskHintData : MsgData :=
  ⟨"user", "user",
    [.text ("<system-hint>需要结构化输出，继续完成任务或调用 '"
      ++ finish_function_name ++ "' 来生成所需的结构化输出。</system-hint>")]⟩

/-- One iteration of the reasoning-acting loop (source lines 415-495):
reason, act on every tool request of the reasoning turn, then evaluate the
exit conditions in the source's order. -/
def replyIter (cfg : AgentCfg) (st : LoopState) (inp : IterInput) : IterStep :=
  let r := reasoningStep cfg st.ag inp.planHint inp.content inp.outcome
  match r.msg with
  | none => .aborted { st with ag := r.state }
  | some msg =>
    if r.raises then .aborted { st with ag := r.state }
    else
      let ap := actPhase st.required st.finishRegistered inp msg.toolUseBlocks
        0 r.state.memory r.state.nextId
      let ag2 : AgentState :=
        { memory := ap.1, hintMsgs := r.state.hintMsgs, nextId := ap.2.1 }
      match ap.2.2 with
      | none => .aborted { st with ag := ag2 }
      | some results =>
        match st.required with
        | some _ =>
          match (truthyOutputs results).getLast? with
          | some so =>
            if msg.hasText then
              .finished
                { st with
                  ag := { ag2 with nextId := ag2.nextId + 1 },
                  structuredOutput := some so }
                ⟨ag2.nextId, cfg.name, "assistant", msg.textBlocks, some so⟩
            else
              .more
                { st with
                  ag :=
                    { memory :=
                        ag2.memory.addMsg
                          ⟨ag2.nextId, textResponseHintData.name,
                            textResponseHintData.role,
                            textResponseHintData.content, none⟩
                          (some MemoryMark.hint),
                      hintMsgs := ag2.hintMsgs,
                      nextId := ag2.nextId + 1 },
                  toolChoice := some .noTools,
                  required := none,
                  structuredOutput := some so }
          | none =>
            if !msg.hasToolUse then
              .more
                { st with
                  ag :=
                    { ag2 with
                      hintMsgs := ag2.hintMsgs ++
                        [⟨ag2.nextId, continueTaskHintData.name,
                          continueTaskHintData.role,
                          continueTaskHintData.content, none⟩],
                      nextId := ag2.nextId + 1 },
                  toolChoice := some .required }
            else .more { st with ag := ag2 }
        | none =>
          if !msg.hasToolUse then
            .finished
              { st with
                ag :=
                  { ag2 with
                    memory := ag2.memory.setMetadataById msg.mid st.structuredOutput } }
              { msg with metadata := st.structuredOutput }
          else .more { st with ag := ag2 }

/-- Result of running the bounded loop: a reply produced by a `break`
(`got`), the iteration budget exhausted without a reply, or a propagated
cancellation/error; `iters` counts executed iterations. -/
inductive RunResult where
  | got (st : LoopState) (m : Msg) (iters : Nat)
  | exhausted (st : LoopState) (iters : Nat)
  | aborted (st : LoopState) (iters : Nat)

/-- The `for _ in range(self.max_iters)` loop, with `k` the index into the
iteration oracle and `fuel` the remaining budget. -/
def runIters (cfg : AgentCfg) (oracle : Nat → IterInput) :
    Nat → Nat → LoopState → RunResult
  | _, 0, st => .exhausted st 0
  | k, fuel + 1, st =>
    match replyIter cfg st (oracle k) with
    | .finished st' m => .got st' m 1
    | .aborted st' => .aborted st' 1
    | .more st' =>
      match runIters cfg oracle (k + 1) fuel st' with
      | .got st'' m i => .got st'' m (i + 1)
      | .exhausted st'' i => .exhausted st'' (i + 1)
      | .aborted st'' i => .aborted st'' (i + 1)

/-- Post-loop handling (source lines 497-501): when the loop produced no
reply, `_summarizing` makes one forced model call (its assembled content given
by `fallbackContent`) and builds a fresh reply turn, the cached structured
output is attached as its metadata, and — alone among all reply paths — this
fallback reply is appended to the log by `reply` itself.  `none` propagates a
cancellation or error to the external interrupt handler. -/
def finishReply (cfg : AgentCfg) (fallbackContent : List ContentBlock) :
    RunResult → Option (AgentState × Msg)
  | .got st m _ => some (st.ag, m)
  | .exhausted st _ =>
    let m : Msg :=
      ⟨st.ag.nextId, cfg.name, "assistant", fallbackContent, st.structuredOutput⟩
    some ({ st.ag with
            memory := st.ag.memory.addMsg m,
            nextId := st.ag.nextId + 1 }, m)
  | .aborted _ _ => none

/-- The public entry operation `reply` (source lines 361-513): append the
input turn, activate or deactivate the completion protocol, run the bounded
reasoning-acting loop, and fall back to forced summarization on budget
exhaustion.  The long-term-memory and knowledge collaborators are not
configured (the claims under study do not involve them). -/
def reply (cfg : AgentCfg) (st0 : AgentState) (inputMsg : Option MsgData)
    (structured_model : Option StructuredSchema) (oracle : Nat → IterInput)
    (fallbackContent : List ContentBlock) : Option (AgentState × Msg) :=
  let mn :=
    match inputMsg with
    | some dta =>
      (st0.memory.addMsg ⟨st0.nextId, dta.name, dta.role, dta.content, none⟩,
       st0.nextId + 1)
    | none => (st0.memory, st0.nextId)
  let st1 : LoopState :=
    { ag := { memory := mn.1, hintMsgs := st0.hintMsgs, nextId := mn.2 },
      required := structured_model,
      finishRegistered := structured_model.isSome,
      toolChoice := if structured_model.isSome then some .required else none,
      structuredOutput := none }
  finishReply cfg fallbackContent (runIters cfg oracle 0 cfg.max_iters st1)

/-! ### Lemmas about the acting phase -/

/-- A chunk stream with no interrupted chunk. -/
def cleanChunks (cs : List ToolRespChunk) : Bool :=
  cs.all fun c => !c.is_interrupted

/-- Draining a clean stream of a non-finishing tool never short-circuits: the
call returns normally with no structured output. -/
lemma actingLoop_non_finish (tool_name : String)
    (hname : tool_name ≠ finish_function_name) :
    ∀ (chunks : List ToolRespChunk) (out : List ContentBlock),
      cleanChunks chunks = true →
      ∃ out', actingLoop tool_name false chunks out =
        (out', ActSignal.normal none) := by
  intro chunks
  induction chunks with
  | nil => intro out _; exact ⟨out, rfl⟩
  | cons c rest ih =>
    intro out hclean
    have hc : c.is_interrupted = false ∧ cleanChunks rest = true := by
      simp only [cleanChunks, List.all_cons, Bool.and_eq_true, Bool.not_eq_eq_eq_not,
        Bool.not_true] at hclean
      exact ⟨by simpa using hclean.1, hclean.2⟩
    have hbeq : (tool_name == finish_function_name) = false :=
      beq_eq_false_iff_ne.mpr hname
    cases hmd : c.metadata with
    | none => simpa [actingLoop, hc.1, hmd] using ih c.content hc.2
    | some md => simpa [actingLoop, hc.1, hmd, hbeq] using ih c.content hc.2

/-- The structured output with which a dispatched `generate_response` call
returns to the controller. -/
def genRespSignal (required : Option StructuredSchema) (args : SArgs) :
    Option SData :=
  match required with
  | some schema =>
    match schema args with
    | .ok d => some d
    | .error _ => none
  | none => none

/-- Acting on the finishing tool: the single `generate_response` chunk is
recorded as the result payload and the call returns the validated structured
output exactly when validation succeeded with a schema active. -/
lemma acting_finish (mem : Memory) (nid : Nat) (tc : ToolUseData)
    (required : Option StructuredSchema)
    (hname : tc.name = finish_function_name) :
    acting mem nid tc [generate_response required tc.input] false =
      (mem.addMsg ⟨nid, "system", "system",
        [.tool_result tc.id tc.name (generate_response required tc.input).content],
        none⟩,
       nid + 1, .normal (genRespSignal required tc.input)) := by
  have hbeq : (tc.name == finish_function_name) = true := beq_iff_eq.mpr hname
  cases required with
  | none => simp [acting, actingLoop, generate_response, hbeq, genRespSignal]
  | some schema =>
    cases hv : schema tc.input with
    | ok d => simp [acting, actingLoop, generate_response, hbeq, hv, genRespSignal]
    | error e => simp [acting, actingLoop, generate_response, hbeq, hv, genRespSignal]

/-- Acting phase over finishing-tool-free calls with clean streams: every call
returns normally with no structured output, ids advance one per call, old
entries persist, and id-freshness is preserved. -/
lemma actPhase_no_finish (required : Option StructuredSchema) (inp : IterInput)
    (hclean : ∀ i, cleanChunks (inp.toolChunks i) = true ∧ inp.toolErr i = false) :
    ∀ (tus : List ToolUseData) (idx : Nat) (mem : Memory) (nid : Nat),
      (∀ tc ∈ tus, tc.name ≠ finish_function_name) →
      ∃ mem' nid',
        actPhase required true inp tus idx mem nid =
          (mem', nid', some (tus.map fun _ => (none : Option SData))) ∧
        (∀ e ∈ mem.entries, e ∈ mem'.entries) ∧
        nid ≤ nid' ∧
        ((∀ e ∈ mem.entries, e.1.mid < nid) →
          ∀ e ∈ mem'.entries, e.1.mid < nid') := by
  intro tus
  induction tus with
  | nil =>
    intro idx mem nid _
    exact ⟨mem, nid, rfl, fun e he => he, Nat.le_refl _, fun h => h⟩
  | cons tc rest ih =>
    intro idx mem nid hnames
    have hname : tc.name ≠ finish_function_name := hnames tc (List.mem_cons_self _ _)
    have hbeq : (tc.name == finish_function_name) = false :=
      beq_eq_false_iff_ne.mpr hname
    obtain ⟨out', hloop⟩ :=
      actingLoop_non_finish tc.name hname (inp.toolChunks idx) [] (hclean idx).1
    obtain ⟨mem', nid', heq, hmono, hle, hfr⟩ :=
      ih (idx + 1) (mem.addMsg ⟨nid, "system", "system",
        [.tool_result tc.id tc.name out'], none⟩) (nid + 1)
        (fun tc' h => hnames tc' (List.mem_cons_of_mem _ h))
    refine ⟨mem', nid', ?_, ?_, Nat.le_of_succ_le hle, ?_⟩
    · simp only [actPhase, hbeq, Bool.true_and, if_neg Bool.false_ne_true,
        (hclean idx).2]
      simp [acting, hloop, heq]
    · intro e he
      exact hmono e (by simp [Memory.addMsg]; left; exact he)
    · intro hf
      refine hfr ?_
      intro e he
      simp only [Memory.addMsg, List.mem_append, List.mem_singleton] at he
      rcases he with h1 | h2
      · exact Nat.lt_succ_of_lt (hf e h1)
      · rw [h2]; exact Nat.lt_succ_self _

/-- Acting phase when the call list contains exactly one finishing-tool call:
only that call can contribute a structured output, its error-or-success
response text is recorded as its result turn's payload, and id-freshness is
preserved. -/
lemma actPhase_with_finish (schema : StructuredSchema) (inp : IterInput)
    (hclean : ∀ i, cleanChunks (inp.toolChunks i) = true ∧ inp.toolErr i = false)
    (tid : String) (args : SArgs) :
    ∀ (pre post : List ToolUseData) (idx : Nat) (mem : Memory) (nid : Nat),
      (∀ tc ∈ pre, tc.name ≠ finish_function_name) →
      (∀ tc ∈ post, tc.name ≠ finish_function_name) →
      ∃ mem' nid',
        actPhase (some schema) true inp
            (pre ++ ⟨tid, finish_function_name, args⟩ :: post) idx mem nid =
          (mem', nid',
           some ((pre.map fun _ => (none : Option SData)) ++
             genRespSignal (some schema) args ::
               (post.map fun _ => (none : Option SData)))) ∧
        (∀ e ∈ mem.entries, e ∈ mem'.entries) ∧
        nid ≤ nid' ∧
        ((⟨nid + pre.length, "system", "system",
            [.tool_result tid finish_function_name
              (generate_response (some schema) args).content], none⟩,
          (none : Option MemoryMark)) ∈ mem'.entries) ∧
        ((∀ e ∈ mem.entries, e.1.mid < nid) →
          ∀ e ∈ mem'.entries, e.1.mid < nid') := by
  intro pre
  induction pre with
  | nil =>
    intro post idx mem nid _ hpost
    have hstep := acting_finish mem nid ⟨tid, finish_function_name, args⟩
      (some schema) rfl
    obtain ⟨mem', nid', heq, hmono, hle, hfr⟩ :=
      actPhase_no_finish (some schema) inp hclean post (idx + 1)
        (mem.addMsg ⟨nid, "system", "system",
          [.tool_result tid finish_function_name
            (generate_response (some schema) args).content], none⟩)
        (nid + 1) hpost
    refine ⟨mem', nid', ?_, ?_, Nat.le_of_succ_le hle, ?_, ?_⟩
    · simp only [List.nil_append, actPhase, beq_self_eq_true, Bool.and_self,
        if_pos, Bool.true_and]
      rw [hstep]
      simp [heq]
    · intro e he
      exact hmono e (by simp [Memory.addMsg]; left; exact he)
    · refine hmono _ ?_
      simp [Memory.addMsg]
    · intro hf
      refine hfr ?_
      intro e he
      simp only [Memory.addMsg, List.mem_append, List.mem_singleton] at he
      rcases he with h1 | h2
      · exact Nat.lt_succ_of_lt (hf e h1)
      · rw [h2]; exact Nat.lt_succ_self _
  | cons tc rest ih =>
    intro post idx mem nid hpre hpost
    have hname : tc.name ≠ finish_function_name := hpre tc (List.mem_cons_self _ _)
    have hbeq : (tc.name == finish_function_name) = false :=
      beq_eq_false_iff_ne.mpr hname
    obtain ⟨out', hloop⟩ :=
      actingLoop_non_finish tc.name hname (inp.toolChunks idx) [] (hclean idx).1
    obtain ⟨mem', nid', heq, hmono, hle, hfin, hfr⟩ :=
      ih post (idx + 1)
        (mem.addMsg ⟨nid, "system", "system",
          [.tool_result tc.id tc.name out'], none⟩) (nid + 1)
        (fun tc' h => hpre tc' (List.mem_cons_of_mem _ h)) hpost
    refine ⟨mem', nid', ?_, ?_, Nat.le_of_succ_le hle, ?_, ?_⟩
    · simp only [List.cons_append, actPhase, hbeq, Bool.true_and,
        if_neg Bool.false_ne_true, (hclean idx).2]
      simp [acting, hloop, heq]
    · intro e he
      exact hmono e (by simp [Memory.addMsg]; left; exact he)
    · have : nid + 1 + rest.length = nid + (tc :: rest).length := by
        simp [List.length_cons]; omega
      rw [← this]
      exact hfin
    · intro hf
      refine hfr ?_
      intro e he
      simp only [Memory.addMsg, List.mem_append, List.mem_singleton] at he
      rcases he with h1 | h2
      · exact Nat.lt_succ_of_lt (hf e h1)
      · rw [h2]; exact Nat.lt_succ_self _

/-- A completed reasoning step preserves the id-freshness invariant. -/
lemma reasoningStep_completed_fresh (cfg : AgentCfg) (st : AgentState)
    (planHint : Option MsgData) (content : List ContentBlock)
    (hfresh : ∀ e ∈ st.memory.entries, e.1.mid < st.nextId) :
    ∀ e ∈ (reasoningStep cfg st planHint content .completed).state.memory.entries,
      e.1.mid < (reasoningStep cfg st planHint content .completed).state.nextId := by
  intro e he
  have hbase := memAfterPlanHint_mid_lt st planHint hfresh
  simp only [reasoningStep, Memory.addMsg, reduceCtorEq, reduceIte] at he ⊢
  rcases List.mem_append.mp he with h1 | h2
  · have := hbase e (clearHintMarked_subset h1)
    omega
  · simp only [List.mem_singleton] at h2
    rw [h2]
    simp

/-- A completed reasoning step appends exactly the assembled assistant turn:
its post-state memory extends the hint-cleared memory with that turn. -/
lemma reasoningStep_completed_shape (cfg : AgentCfg) (st : AgentState)
    (planHint : Option MsgData) (content : List ContentBlock) :
    (reasoningStep cfg st planHint content .completed).msg =
      some ⟨(memAfterPlanHint st planHint).2, cfg.name, "assistant", content, none⟩ ∧
    (reasoningStep cfg st planHint content .completed).raises = false ∧
    (reasoningStep cfg st planHint content .completed).state.memory =
      (memAfterPlanHint st planHint).1.clearHintMarked.addMsg
        ⟨(memAfterPlanHint st planHint).2, cfg.name, "assistant", content, none⟩ ∧
    (reasoningStep cfg st planHint content .completed).state.nextId =
      (memAfterPlanHint st planHint).2 + 1 := by
  refine ⟨rfl, rfl, ?_, rfl⟩
  simp [reasoningStep]

/-! ### Lemmas about the evaluation phase of the loop -/

/-- Calls that produce no structured output are dropped by the truthiness
filter. -/
lemma truthyOutputs_all_none (l : List ToolUseData) :
    truthyOutputs (l.map fun _ => (none : Option SData)) = [] := by
  induction l with
  | nil => rfl
  | cons x xs ih => exact ih

/-- With exactly one truthy structured output among the results, the filter
keeps exactly it. -/
lemma truthyOutputs_shape (pre post : List ToolUseData) (d : SData)
    (hd : d.isEmpty = false) :
    truthyOutputs ((pre.map fun _ => (none : Option SData)) ++
      some d :: (post.map fun _ => (none : Option SData))) = [d] := by
  induction pre with
  | nil =>
    simp only [List.map_nil, List.nil_append, truthyOutputs, List.filterMap_cons, hd]
    have h2 := truthyOutputs_all_none post
    simp only [truthyOutputs] at h2
    simp [h2]
  | cons x xs ih =>
    simp only [List.map_cons, List.cons_append, truthyOutputs, List.filterMap_cons]
    simpa [truthyOutputs] using ih

/-- Key iteration lemma: with a schema pending, a completed reasoning turn
holding one valid finishing-tool call and text content makes the loop break
with a freshly constructed reply carrying the validated data as metadata. -/
lemma replyIter_success_text (cfg : AgentCfg) (st : LoopState) (inp : IterInput)
    (schema : StructuredSchema) (tid : String) (args : SArgs) (d : SData)
    (pre post : List ToolUseData)
    (hreq : st.required = some schema) (hreg : st.finishRegistered = true)
    (hout : inp.outcome = .completed)
    (hcalls : contentToolUses inp.content =
      pre ++ ⟨tid, finish_function_name, args⟩ :: post)
    (hpre : ∀ tc ∈ pre, tc.name ≠ finish_function_name)
    (hpost : ∀ tc ∈ post, tc.name ≠ finish_function_name)
    (hval : schema args = .ok d) (hd : d.isEmpty = false)
    (hclean : ∀ i, cleanChunks (inp.toolChunks i) = true ∧ inp.toolErr i = false)
    (htext : (contentTextBlocks inp.content).isEmpty = false) :
    ∃ st' m, replyIter cfg st inp = .finished st' m ∧
      m.metadata = some d ∧
      m.content = contentTextBlocks inp.content ∧
      st'.structuredOutput = some d ∧
      m.mid + 1 = st'.ag.nextId ∧
      ((∀ e ∈ st.ag.memory.entries, e.1.mid < st.ag.nextId) →
        ∀ e ∈ st'.ag.memory.entries, e.1.mid ≠ m.mid) := by
  obtain ⟨ph, content, outcome, tch, terr⟩ := inp
  obtain ⟨ag, req, freg, tcho, sout⟩ := st
  simp only at hreq hreg hcalls hclean htext hout ⊢
  subst hout hreq hreg
  have hshape := reasoningStep_completed_shape cfg ag ph content
  obtain ⟨mem', nid', happ, hmono, hle, hfinmem, hfr⟩ :=
    actPhase_with_finish schema ⟨ph, content, .completed, tch, terr⟩ hclean tid args
      pre post 0
      (reasoningStep cfg ag ph content .completed).state.memory
      (reasoningStep cfg ag ph content .completed).state.nextId hpre hpost
  have htus : (Msg.toolUseBlocks
      ⟨(memAfterPlanHint ag ph).2, cfg.name, "assistant", content, none⟩) =
      pre ++ ⟨tid, finish_function_name, args⟩ :: post := by
    simpa [Msg.toolUseBlocks] using hcalls
  have hsig : genRespSignal (some schema) args = some d := by
    simp [genRespSignal, hval]
  rw [hsig] at happ
  have htruthy := truthyOutputs_shape pre post d hd
  have hHasText : (Msg.hasText
      ⟨(memAfterPlanHint ag ph).2, cfg.name, "assistant", content, none⟩) = true := by
    simp [Msg.hasText, Msg.textBlocks, htext]
  refine ⟨⟨⟨mem', (reasoningStep cfg ag ph content .completed).state.hintMsgs,
      nid' + 1⟩, some schema, true, tcho, some d⟩,
    ⟨nid', cfg.name, "assistant", contentTextBlocks content, some d⟩,
    ?_, rfl, rfl, rfl, rfl, ?_⟩
  · simp only [replyIter, hshape.1, hshape.2.1, Bool.false_eq_true, reduceIte,
      htus, happ, htruthy, List.getLast?_singleton, hHasText, Msg.textBlocks]
  · intro hf e he hmid
    have hlt := hfr (reasoningStep_completed_fresh cfg ag ph content hf) e he
    have hm : (⟨nid', cfg.name, "assistant", contentTextBlocks content,
        some d⟩ : Msg).mid = nid' := rfl
    rw [hm] at hmid
    omega

/-- With no schema pending, an iteration either breaks with a reply whose
metadata is the cached structured output, continues with the cache and the
no-schema state intact, or aborts. -/
lemma replyIter_required_none (cfg : AgentCfg) (st : LoopState) (inp : IterInput)
    (hreq : st.required = none) :
    (∃ st' m, replyIter cfg st inp = .finished st' m ∧
       m.metadata = st.structuredOutput ∧
       st'.structuredOutput = st.structuredOutput) ∨
    (∃ st', replyIter cfg st inp = .more st' ∧ st'.required = none ∧
       st'.structuredOutput = st.structuredOutput) ∨
    (∃ st', replyIter cfg st inp = .aborted st') := by
  obtain ⟨ag, req, freg, tcho, sout⟩ := st
  simp only at hreq ⊢
  subst hreq
  cases hmsg : (reasoningStep cfg ag inp.planHint inp.content inp.outcome).msg with
  | none =>
    right; right
    simp only [replyIter, hmsg]
    exact ⟨_, rfl⟩
  | some msg =>
    cases hrs : (reasoningStep cfg ag inp.planHint inp.content inp.outcome).raises with
    | true =>
      right; right
      simp only [replyIter, hmsg, hrs, reduceIte]
      exact ⟨_, rfl⟩
    | false =>
      cases hap : (actPhase none freg inp msg.toolUseBlocks 0
          (reasoningStep cfg ag inp.planHint inp.content inp.outcome).state.memory
          (reasoningStep cfg ag inp.planHint inp.content inp.outcome).state.nextId).2.2 with
      | none =>
        right; right
        simp only [replyIter, hmsg, hrs, Bool.false_eq_true, reduceIte]
        rw [hap]
        exact ⟨_, rfl⟩
      | some results =>
        cases htu : msg.hasToolUse with
        | false =>
          left
          simp only [replyIter, hmsg, hrs, Bool.false_eq_true, reduceIte]
          rw [hap]
          simp only [htu, Bool.not_false, reduceIte]
          exact ⟨_, _, rfl, rfl, rfl⟩
        | true =>
          right; left
          simp only [replyIter, hmsg, hrs, Bool.false_eq_true, reduceIte]
          rw [hap]
          simp only [htu, Bool.not_true, reduceIte]
          exact ⟨_, rfl, rfl, rfl⟩

/-- Run-level preservation: once the schema is satisfied and the structured
output cached, any reply the remaining loop produces carries it as metadata,
and on budget exhaustion the cache still holds it. -/
lemma runIters_after_satisfied (cfg : AgentCfg) (oracle : Nat → IterInput)
    (d : SData) :
    ∀ (fuel k : Nat) (st : LoopState),
      st.required = none → st.structuredOutput = some d →
      (∀ st' m i, runIters cfg oracle k fuel st = .got st' m i →
        m.metadata = some d) ∧
      (∀ st' i, runIters cfg oracle k fuel st = .exhausted st' i →
        st'.structuredOutput = some d) := by
  intro fuel
  induction fuel with
  | zero =>
    intro k st h1 h2
    constructor
    · intro st' m i h
      exact absurd h (by simp [runIters])
    · intro st' i h
      simp only [runIters, RunResult.exhausted.injEq] at h
      rw [← h.1]
      exact h2
  | succ fuel ih =>
    intro k st h1 h2
    rcases replyIter_required_none cfg st (oracle k) h1 with
      ⟨st', m, heq, hmet, hso⟩ | ⟨st', heq, hreq', hso'⟩ | ⟨st', heq⟩
    · constructor
      · intro st'' m'' i h
        simp only [runIters, heq, RunResult.got.injEq] at h
        rw [← h.2.1, hmet]
        exact h2
      · intro st'' i h
        simp [runIters, heq] at h
    · have hrec := ih (k + 1) st' hreq' (by rw [hso']; exact h2)
      constructor
      · intro st'' m'' i h
        simp only [runIters, heq] at h
        cases hr : runIters cfg oracle (k + 1) fuel st' with
        | got a b c =>
          rw [hr] at h
          simp only [RunResult.got.injEq] at h
          rw [← h.2.1]
          exact hrec.1 a b c hr
        | exhausted a c => rw [hr] at h; cases h
        | aborted a c => rw [hr] at h; cases h
      · intro st'' i h
        simp only [runIters, heq] at h
        cases hr : runIters cfg oracle (k + 1) fuel st' with
        | got a b c => rw [hr] at h; cases h
        | exhausted a c =>
          rw [hr] at h
          simp only [RunResult.exhausted.injEq] at h
          rw [← h.1]
          exact hrec.2 a c hr
        | aborted a c => rw [hr] at h; cases h
    · constructor
      · intro st'' m'' i h
        simp [runIters, heq] at h
      · intro st'' i h
        simp [runIters, heq] at h

/-- The loop executes at most `fuel` iterations. -/
lemma runIters_iters_le (cfg : AgentCfg) (oracle : Nat → IterInput) :
    ∀ (fuel k : Nat) (st : LoopState) (r : RunResult),
      runIters cfg oracle k fuel st = r →
      (∀ st' m i, r = .got st' m i → i ≤ fuel) ∧
      (∀ st' i, r = .exhausted st' i → i ≤ fuel) ∧
      (∀ st' i, r = .aborted st' i → i ≤ fuel) := by
  intro fuel
  induction fuel with
  | zero =>
    intro k st r hr
    simp only [runIters] at hr
    subst hr
    refine ⟨?_, ?_, ?_⟩
    · intro st' m i h; cases h
    · intro st' i h
      simp only [RunResult.exhausted.injEq] at h
      omega
    · intro st' i h; cases h
  | succ fuel ih =>
    intro k st r hr
    cases hit : replyIter cfg st (oracle k) with
    | finished st' m =>
      simp only [runIters, hit] at hr
      subst hr
      refine ⟨?_, ?_, ?_⟩
      · intro a b i h
        simp only [RunResult.got.injEq] at h
        omega
      · intro a i h; cases h
      · intro a i h; cases h
    | aborted st' =>
      simp only [runIters, hit] at hr
      subst hr
      refine ⟨?_, ?_, ?_⟩
      · intro a b i h; cases h
      · intro a i h; cases h
      · intro a i h
        simp only [RunResult.aborted.injEq] at h
        omega
    | more st' =>
      simp only [runIters, hit] at hr
      obtain ⟨g1, g2, g3⟩ := ih (k + 1) st' (runIters cfg oracle (k + 1) fuel st') rfl
      cases hr2 : runIters cfg oracle (k + 1) fuel st' with
      | got a b c =>
        simp only [hr2] at hr
        subst hr
        refine ⟨?_, ?_, ?_⟩
        · intro a' b' i h
          simp only [RunResult.got.injEq] at h
          have := g1 a b c hr2
          omega
        · intro a' i h; cases h
        · intro a' i h; cases h
      | exhausted a c =>
        simp only [hr2] at hr
        subst hr
        refine ⟨?_, ?_, ?_⟩
        · intro a' b' i h; cases h
        · intro a' i h
          simp only [RunResult.exhausted.injEq] at h
          have := g2 a c hr2
          omega
        · intro a' i h; cases h
      | aborted a c =>
        simp only [hr2] at hr
        subst hr
        refine ⟨?_, ?_, ?_⟩
        · intro a' b' i h; cases h
        · intro a' i h; cases h
        · intro a' i h
          simp only [RunResult.aborted.injEq] at h
          have := g3 a c hr2
          omega

/-- Key iteration lemma, text-free variant: the loop caches the validated
data, clears the pending schema, and continues to generate a text response. -/
lemma replyIter_success_notext (cfg : AgentCfg) (st : LoopState)
    (inp : IterInput) (schema : StructuredSchema) (tid : String) (args : SArgs)
    (d : SData) (pre post : List ToolUseData)
    (hreq : st.required = some schema) (hreg : st.finishRegistered = true)
    (hout : inp.outcome = .completed)
    (hcalls : contentToolUses inp.content =
      pre ++ ⟨tid, finish_function_name, args⟩ :: post)
    (hpre : ∀ tc ∈ pre, tc.name ≠ finish_function_name)
    (hpost : ∀ tc ∈ post, tc.name ≠ finish_function_name)
    (hval : schema args = .ok d) (hd : d.isEmpty = false)
    (hclean : ∀ i, cleanChunks (inp.toolChunks i) = true ∧ inp.toolErr i = false)
    (htext : (contentTextBlocks inp.content).isEmpty = true) :
    ∃ st', replyIter cfg st inp = .more st' ∧ st'.required = none ∧
      st'.structuredOutput = some d := by
  obtain ⟨ph, content, outcome, tch, terr⟩ := inp
  obtain ⟨ag, req, freg, tcho, sout⟩ := st
  simp only at hreq hreg hcalls hclean htext hout ⊢
  subst hout hreq hreg
  have hshape := reasoningStep_completed_shape cfg ag ph content
  obtain ⟨mem', nid', happ, hmono, hle, hfinmem, hfr⟩ :=
    actPhase_with_finish schema ⟨ph, content, .completed, tch, terr⟩ hclean tid args
      pre post 0
      (reasoningStep cfg ag ph content .completed).state.memory
      (reasoningStep cfg ag ph content .completed).state.nextId hpre hpost
  have htus : (Msg.toolUseBlocks
      ⟨(memAfterPlanHint ag ph).2, cfg.name, "assistant", content, none⟩) =
      pre ++ ⟨tid, finish_function_name, args⟩ :: post := by
    simpa [Msg.toolUseBlocks] using hcalls
  have hsig : genRespSignal (some schema) args = some d := by
    simp [genRespSignal, hval]
  rw [hsig] at happ
  have htruthy := truthyOutputs_shape pre post d hd
  have hHasText : (Msg.hasText
      ⟨(memAfterPlanHint ag ph).2, cfg.name, "assistant", content, none⟩) = false := by
    simp [Msg.hasText, Msg.textBlocks, htext]
  simp only [replyIter, hshape.1, hshape.2.1, Bool.false_eq_true, reduceIte,
    htus, happ, htruthy, List.getLast?_singleton, hHasText]
  exact ⟨_, rfl, rfl, rfl⟩

/-- A result list with no truthy output filters to the empty list. -/
lemma truthyOutputs_shape_none (pre post : List ToolUseData) :
    truthyOutputs ((pre.map fun _ => (none : Option SData)) ++
      (none : Option SData) :: (post.map fun _ => (none : Option SData))) = [] := by
  induction pre with
  | nil => exact truthyOutputs_all_none post
  | cons x xs ih => exact ih

/-- Iteration lemma for an invalid finishing-tool call: no structured output
is produced, the loop continues with the schema still pending, and the
validation-error text is recorded as an ordinary tool result. -/
lemma replyIter_invalid_finish_args (cfg : AgentCfg) (st : LoopState)
    (inp : IterInput) (schema : StructuredSchema) (tid : String) (args : SArgs)
    (err : String) (pre post : List ToolUseData)
    (hreq : st.required = some schema) (hreg : st.finishRegistered = true)
    (hout : inp.outcome = .completed)
    (hcalls : contentToolUses inp.content =
      pre ++ ⟨tid, finish_function_name, args⟩ :: post)
    (hpre : ∀ tc ∈ pre, tc.name ≠ finish_function_name)
    (hpost : ∀ tc ∈ post, tc.name ≠ finish_function_name)
    (hval : schema args = .error err)
    (hclean : ∀ i, cleanChunks (inp.toolChunks i) = true ∧ inp.toolErr i = false) :
    ∃ st', replyIter cfg st inp = .more st' ∧ st'.required = some schema ∧
      st'.structuredOutput = st.structuredOutput ∧
      ∃ e ∈ st'.ag.memory.entries,
        e.1.content = [ContentBlock.tool_result tid finish_function_name
          [ContentBlock.text ("参数验证错误: " ++ err)]] := by
  obtain ⟨ph, content, outcome, tch, terr⟩ := inp
  obtain ⟨ag, req, freg, tcho, sout⟩ := st
  simp only at hreq hreg hcalls hclean hout ⊢
  subst hout hreq hreg
  have hshape := reasoningStep_completed_shape cfg ag ph content
  obtain ⟨mem', nid', happ, hmono, hle, hfinmem, hfr⟩ :=
    actPhase_with_finish schema ⟨ph, content, .completed, tch, terr⟩ hclean tid args
      pre post 0
      (reasoningStep cfg ag ph content .completed).state.memory
      (reasoningStep cfg ag ph content .completed).state.nextId hpre hpost
  have htus : (Msg.toolUseBlocks
      ⟨(memAfterPlanHint ag ph).2, cfg.name, "assistant", content, none⟩) =
      pre ++ ⟨tid, finish_function_name, args⟩ :: post := by
    simpa [Msg.toolUseBlocks] using hcalls
  have hsig : genRespSignal (some schema) args = none := by
    simp [genRespSignal, hval]
  rw [hsig] at happ
  have htruthy := truthyOutputs_shape_none pre post
  have hHasTU : (Msg.hasToolUse
      ⟨(memAfterPlanHint ag ph).2, cfg.name, "assistant", content, none⟩) = true := by
    simp only [Msg.hasToolUse, Msg.toolUseBlocks]
    rw [hcalls]
    cases pre <;> simp
  have hgen : (generate_response (some schema) args).content =
      [ContentBlock.text ("参数验证错误: " ++ err)] := by
    simp [generate_response, hval]
  rw [hgen] at hfinmem
  simp only [replyIter, hshape.1, hshape.2.1, Bool.false_eq_true, reduceIte,
    htus, happ, htruthy, List.getLast?_nil, hHasTU, Bool.not_true]
  exact ⟨_, rfl, rfl, rfl, _, hfinmem, rfl⟩

/-! ### Claim C7: a valid finishing-tool call and the structured reply

The claim as stated is false on the code: when the supplied schema validates
the finishing tool's arguments to an EMPTY dict (a zero-field schema accepts
any keyword arguments as `{}`), the truthiness filter at source line 437
(`[_ for _ in structured_outputs if _]`) discards the validated result, the
loop neither caches it nor breaks, and the entry operation's eventual reply
carries metadata `None` instead of the validated data.  The counterexample
below exhibits this; the theorem then proves the claim amended with the
condition the counterexample forces: the validated structured data is
non-empty. -/

/-- Zero-field schema: any keyword arguments validate to the empty dict. -/
def c7cexSchema : StructuredSchema := fun _ => .ok []

/-- Iteration oracle for the counterexample: the model calls the finishing
tool with (trivially valid) arguments and emits text in the same step. -/
def c7cexOracle : Nat → IterInput := fun _ =>
  ⟨none,
   [ContentBlock.tool_use "t1" "generate_response" [],
    ContentBlock.text "done"],
   .completed, fun _ => [], fun _ => false⟩

/-- Counterexample to C7 as stated: with `max_iters = 2`, a supplied schema
validating the finishing tool's arguments `[]` to the empty dict `[]`, and
the model calling the finishing tool (with text content present) on every
iteration well within the budget, the entry operation `reply` returns a reply
whose metadata is `none` — not the validated structured data `some []`. -/
theorem c7_counterexample :
    c7cexSchema [] = Except.ok ([] : SData) ∧
    (reply ⟨"bot", "sys", 2⟩ ⟨⟨[], none⟩, [], 0⟩ none (some c7cexSchema)
        c7cexOracle [ContentBlock.text "fb"]).map (fun r => r.2.metadata) =
      some none ∧
    (some (none : Option SData) : Option (Option SData)) ≠ some (some []) :=
  ⟨rfl, rfl, fun h => Option.noConfusion (Option.some.inj h)⟩

/-- C7, amended: if a result schema is supplied (schema pending, finishing
tool registered) and the model calls the finishing tool with arguments that
validate against the schema to a NON-EMPTY structured dict, then every reply
the entry operation can return — the break reply, or the fallback reply built
by `finishReply` on budget exhaustion — has metadata equal to the validated
structured data, and the loop executes at most `fuel + 1` iterations
(`max_iters` at the `reply` instantiation). -/
theorem c7_valid_finish_call_yields_structured_reply (cfg : AgentCfg)
    (oracle : Nat → IterInput) (k fuel : Nat) (st : LoopState)
    (schema : StructuredSchema) (tid : String) (args : SArgs) (d : SData)
    (pre post : List ToolUseData)
    (hreq : st.required = some schema) (hreg : st.finishRegistered = true)
    (hout : (oracle k).outcome = .completed)
    (hcalls : contentToolUses (oracle k).content =
      pre ++ ⟨tid, finish_function_name, args⟩ :: post)
    (hpre : ∀ tc ∈ pre, tc.name ≠ finish_function_name)
    (hpost : ∀ tc ∈ post, tc.name ≠ finish_function_name)
    (hval : schema args = .ok d) (hd : d.isEmpty = false)
    (hclean : ∀ i, cleanChunks ((oracle k).toolChunks i) = true ∧
      (oracle k).toolErr i = false) :
    (∀ st' m i, runIters cfg oracle k (fuel + 1) st = .got st' m i →
      m.metadata = some d ∧ i ≤ fuel + 1) ∧
    (∀ st' i fb, runIters cfg oracle k (fuel + 1) st = .exhausted st' i →
      ∃ stF mF, finishReply cfg fb (.exhausted st' i) = some (stF, mF) ∧
        mF.metadata = some d ∧ i ≤ fuel + 1) := by
  cases htext : (contentTextBlocks (oracle k).content).isEmpty with
  | false =>
    obtain ⟨st', m, heq, hmet, hcont, hso, hmid, hfr⟩ :=
      replyIter_success_text cfg st (oracle k) schema tid args d pre post
        hreq hreg hout hcalls hpre hpost hval hd hclean htext
    constructor
    · intro st'' m'' i h
      simp only [runIters, heq, RunResult.got.injEq] at h
      refine ⟨?_, ?_⟩
      · rw [← h.2.1]; exact hmet
      · omega
    · intro st'' i fb h
      simp [runIters, heq] at h
  | true =>
    obtain ⟨st', heq, hreq', hso⟩ :=
      replyIter_success_notext cfg st (oracle k) schema tid args d pre post
        hreq hreg hout hcalls hpre hpost hval hd hclean htext
    have hsat := runIters_after_satisfied cfg oracle d fuel (k + 1) st' hreq' hso
    have hle := runIters_iters_le cfg oracle fuel (k + 1) st'
      (runIters cfg oracle (k + 1) fuel st') rfl
    constructor
    · intro st'' m'' i h
      simp only [runIters, heq] at h
      cases hr : runIters cfg oracle (k + 1) fuel st' with
      | got a b c =>
        simp only [hr, RunResult.got.injEq] at h
        refine ⟨?_, ?_⟩
        · rw [← h.2.1]; exact hsat.1 a b c hr
        · have := hle.1 a b c hr; omega
      | exhausted a c => simp [hr] at h
      | aborted a c => simp [hr] at h
    · intro st'' i fb h
      simp only [runIters, heq] at h
      cases hr : runIters cfg oracle (k + 1) fuel st' with
      | got a b c => simp [hr] at h
      | exhausted a c =>
        simp only [hr, RunResult.exhausted.injEq] at h
        refine ⟨_, _, rfl, ?_, ?_⟩
        · show st''.structuredOutput = some d
          rw [← h.1]
          exact hsat.2 a c hr
        · have := hle.2.1 a c hr; omega
      | aborted a c => simp [hr] at h

/-! ### Claim C8: invalid finishing-tool arguments are recoverable -/

/-- C8: a finishing-tool call whose arguments fail schema validation returns
a recoverable tool result with metadata `{success: false, structured_output:
{}}`, the reasoning-acting loop does not terminate on that iteration (the
schema stays pending so the model may retry), and the validation error is
recorded in the log as an ordinary tool result the model will see. -/
theorem c8_invalid_finish_args_recoverable (cfg : AgentCfg) (st : LoopState)
    (inp : IterInput) (schema : StructuredSchema) (tid : String) (args : SArgs)
    (err : String) (pre post : List ToolUseData)
    (hreq : st.required = some schema) (hreg : st.finishRegistered = true)
    (hout : inp.outcome = .completed)
    (hcalls : contentToolUses inp.content =
      pre ++ ⟨tid, finish_function_name, args⟩ :: post)
    (hpre : ∀ tc ∈ pre, tc.name ≠ finish_function_name)
    (hpost : ∀ tc ∈ post, tc.name ≠ finish_function_name)
    (hval : schema args = .error err)
    (hclean : ∀ i, cleanChunks (inp.toolChunks i) = true ∧ inp.toolErr i = false) :
    generate_response (some schema) args =
      { content := [ContentBlock.text ("参数验证错误: " ++ err)],
        metadata := some ⟨false, some []⟩, is_interrupted := false } ∧
    ∃ st', replyIter cfg st inp = .more st' ∧ st'.required = some schema ∧
      ∃ e ∈ st'.ag.memory.entries,
        e.1.content = [ContentBlock.tool_result tid finish_function_name
          [ContentBlock.text ("参数验证错误: " ++ err)]] := by
  constructor
  · simp [generate_response, hval]
  · obtain ⟨st', h1, h2, h3, h4⟩ :=
      replyIter_invalid_finish_args cfg st inp schema tid args err pre post
        hreq hreg hout hcalls hpre hpost hval hclean
    exact ⟨st', h1, h2, h4⟩

/-! ### Claim C10: which replies the entry operation appends to the log -/

/-- C10: when a validated structured result and text content arrive in the
same reasoning step, the reply returned by the entry operation is a newly
constructed message whose id is absent from the conversation log, and the
post-loop handler leaves the log unchanged on that path; among all reply
paths only the budget-exhausted fallback summary reply is appended to the
log by the entry operation itself. -/
theorem c10_reply_appended_only_in_fallback (cfg : AgentCfg) (st : LoopState)
    (inp : IterInput) (schema : StructuredSchema) (tid : String) (args : SArgs)
    (d : SData) (pre post : List ToolUseData)
    (hreq : st.required = some schema) (hreg : st.finishRegistered = true)
    (hout : inp.outcome = .completed)
    (hcalls : contentToolUses inp.content =
      pre ++ ⟨tid, finish_function_name, args⟩ :: post)
    (hpre : ∀ tc ∈ pre, tc.name ≠ finish_function_name)
    (hpost : ∀ tc ∈ post, tc.name ≠ finish_function_name)
    (hval : schema args = .ok d) (hd : d.isEmpty = false)
    (hclean : ∀ i, cleanChunks (inp.toolChunks i) = true ∧ inp.toolErr i = false)
    (htext : (contentTextBlocks inp.content).isEmpty = false)
    (hfresh : ∀ e ∈ st.ag.memory.entries, e.1.mid < st.ag.nextId) :
    (∃ st' m, replyIter cfg st inp = .finished st' m ∧
      m.metadata = some d ∧ m.content = contentTextBlocks inp.content ∧
      (∀ e ∈ st'.ag.memory.entries, e.1.mid ≠ m.mid) ∧
      (∀ fb i, finishReply cfg fb (.got st' m i) = some (st'.ag, m))) ∧
    (∀ (stE : LoopState) (i : Nat) (fb : List ContentBlock), ∃ stF mF,
      finishReply cfg fb (.exhausted stE i) = some (stF, mF) ∧
      stF.memory.entries = stE.ag.memory.entries ++ [(mF, none)]) := by
  constructor
  · obtain ⟨st', m, heq, hmet, hcont, hso, hmid, hfr⟩ :=
      replyIter_success_text cfg st inp schema tid args d pre post
        hreq hreg hout hcalls hpre hpost hval hd hclean htext
    exact ⟨st', m, heq, hmet, hcont, hfr hfresh, fun fb i => rfl⟩
  · intro stE i fb
    exact ⟨_, _, rfl, rfl⟩

/-- Concrete validation function used by the loop witnesses: accepts exactly
one argument dict. -/
def witSchema : StructuredSchema := fun args =>
  if args = [("answer", "42")] then .ok [("answer", "42")] else .error "bad"

/-- Loop state at the start of a structured-output `reply` call. -/
def witState : LoopState :=
  ⟨⟨⟨[], none⟩, [], 0⟩, some witSchema, true, some .required, none⟩

/-- Iteration oracle: the model calls the finishing tool with valid arguments
and emits text in the same step. -/
def witOracleOk : Nat → IterInput := fun _ =>
  ⟨none,
   [ContentBlock.tool_use "t1" "generate_response" [("answer", "42")],
    ContentBlock.text "done"],
   .completed, fun _ => [], fun _ => false⟩

/-- Iteration input: the model calls the finishing tool with invalid
arguments. -/
def witInputBad : IterInput :=
  ⟨none, [ContentBlock.tool_use "t1" "generate_response" [("answer", "7")]],
   .completed, fun _ => [], fun _ => false⟩

/-- Witness for C7 at a concrete schema, oracle and run. -/
theorem c7_witness :
    ∃ st' m i,
      runIters ⟨"bot", "sys", 3⟩ witOracleOk 0 3 witState = .got st' m i ∧
      m.metadata = some [("answer", "42")] ∧ i ≤ 3 := by
  refine ⟨_, _, _, rfl, ?_⟩
  exact (c7_valid_finish_call_yields_structured_reply ⟨"bot", "sys", 3⟩
    witOracleOk 0 2 witState witSchema "t1" [("answer", "42")]
    [("answer", "42")] [] [] rfl rfl rfl rfl
    (fun tc h => absurd h (List.not_mem_nil tc))
    (fun tc h => absurd h (List.not_mem_nil tc)) (by simp [witSchema]) rfl
    (fun i => ⟨rfl, rfl⟩)).1 _ _ _ rfl

/-- Witness for C8 at a concrete schema and invalid call. -/
theorem c8_witness :
    generate_response (some witSchema) [("answer", "7")] =
      { content := [ContentBlock.text ("参数验证错误: " ++ "bad")],
        metadata := some ⟨false, some []⟩, is_interrupted := false } ∧
    ∃ st', replyIter ⟨"bot", "sys", 3⟩ witState witInputBad = .more st' ∧
      st'.required = some witSchema ∧
      ∃ e ∈ st'.ag.memory.entries,
        e.1.content = [ContentBlock.tool_result "t1" finish_function_name
          [ContentBlock.text ("参数验证错误: " ++ "bad")]] :=
  c8_invalid_finish_args_recoverable ⟨"bot", "sys", 3⟩ witState witInputBad
    witSchema "t1" [("answer", "7")] "bad" [] [] rfl rfl rfl rfl
    (fun tc h => absurd h (List.not_mem_nil tc))
    (fun tc h => absurd h (List.not_mem_nil tc)) (by simp [witSchema])
    (fun i => ⟨rfl, rfl⟩)

/-- Witness for C10 at a concrete schema, oracle and state. -/
theorem c10_witness :
    (∃ st' m,
      replyIter ⟨"bot", "sys", 3⟩ witState (witOracleOk 0) = .finished st' m ∧
      m.metadata = some [("answer", "42")] ∧
      m.content = contentTextBlocks (witOracleOk 0).content ∧
      (∀ e ∈ st'.ag.memory.entries, e.1.mid ≠ m.mid) ∧
      (∀ fb i, finishReply ⟨"bot", "sys", 3⟩ fb (.got st' m i) =
        some (st'.ag, m))) ∧
    (∀ (stE : LoopState) (i : Nat) (fb : List ContentBlock), ∃ stF mF,
      finishReply ⟨"bot", "sys", 3⟩ fb (.exhausted stE i) = some (stF, mF) ∧
      stF.memory.entries = stE.ag.memory.entries ++ [(mF, none)]) :=
  c10_reply_appended_only_in_fallback ⟨"bot", "sys", 3⟩ witState (witOracleOk 0)
    witSchema "t1" [("answer", "42")] [("answer", "42")] [] [] rfl rfl rfl rfl
    (fun tc h => absurd h (List.not_mem_nil tc))
    (fun tc h => absurd h (List.not_mem_nil tc)) (by simp [witSchema]) rfl
    (fun i => ⟨rfl, rfl⟩) rfl
    (fun e he => absurd he (List.not_mem_nil e))
